import Mathlib

/-!
# Verification of the HoloPy scattering-theory core

Shallow embedding of the two core source files of the repository:

* `holopy/core/math.py` — pure geometry/statistics helpers
  (`to_spherical`, `cartesian_distance`, `chisq`);
* `holopy/scattering/theory/scatteringtheory.py` — the `ScatteringTheory`
  engine (`wavevec`, `_calc_field` with its inner `get_field`,
  `_calc_cross_sections`, `_calc_scat_matrix`).

Machine floats are modelled by `ℝ`/`ℂ`; numpy arrays by lists; xarray
labelled arrays by structures carrying the data together with the label
metadata that the source attaches.  Python exceptions are modelled by
`Except` with an explicit error type.  The out-of-scope collaborators
(the physics kernel `_raw_fields` / `_raw_scat_matrs` /
`_raw_cross_sections` / `_can_handle`, and the scatterer capabilities
`center`, `get_component_list`, `select`) are parameters, exactly as the
source treats them as an opaque capability set.

`_calc_field` evaluates its missing-parameter check before the
coordinate transform of the detector positions; to make that ordering
provable, the embedding additionally records an event trace listing each
coordinate-transform attempt (with the centre it was attempted with).
-/

namespace HoloPy

/-! ## holopy/core/math.py -/

/-- Two-argument arctangent, numpy's `arctan2(y, x)`: the argument of the
complex number `x + i y`, with `arctan2 0 0 = 0`. -/
noncomputable def arctan2 (y x : ℝ) : ℝ := Complex.arg ⟨x, y⟩

/-- A spherical-polar coordinate triple, the `{'r','theta','phi'}` dict of
`math.to_spherical`. -/
structure SphCoord where
  r : ℝ
  theta : ℝ
  phi : ℝ

/-- Source function `math.to_spherical(x, y, z)`:
`r = sqrt(x²+y²+z²)`, `theta = arctan2(sqrt(x²+y²), z)`,
`phi = arctan2(y, x) + 2π·(phi < 0)`. -/
noncomputable def to_spherical (x y z : ℝ) : SphCoord :=
  let r := Real.sqrt (x ^ 2 + y ^ 2 + z ^ 2)
  let theta := arctan2 (Real.sqrt (x ^ 2 + y ^ 2)) z
  let phi0 := arctan2 y x
  let phi := phi0 + 2 * Real.pi * (if phi0 < 0 then 1 else 0)
  ⟨r, theta, phi⟩

/-- Source function `math.cartesian_distance(p1, p2=[0,0,0])`: Euclidean norm of the
elementwise difference, for N-dimensional points. -/
noncomputable def cartesian_distance (p1 : List ℝ) (p2 : List ℝ := [0, 0, 0]) : ℝ :=
  Real.sqrt (((List.zipWith (fun a b => a - b) p1 p2).map (fun d => d ^ 2)).sum)

/-- Source function `math.chisq(fit, data)`: `float(((fit-data)**2).sum() / fit.size)`.
Note the source divides by the size of `fit`. -/
noncomputable def chisq (fit data : List ℝ) : ℝ :=
  ((List.zipWith (fun a b => a - b) fit data).map (fun d => d ^ 2)).sum / fit.length

/-! ## Data model for holopy/scattering/theory/scatteringtheory.py -/

/-- A Cartesian point. -/
structure Point3 where
  x : ℝ
  y : ℝ
  z : ℝ

/-- An illumination polarization vector (a 2- or 3-component vector in the
source; passed through to the kernel unchanged). -/
abbrev Pol := List ℝ

/-- A complex field 3-vector (one per detector position). -/
abbrev CVec3 := ℂ × ℂ × ℂ

/-- One per-position scattering matrix: the `(2, 2)` block returned by the
kernel, laid out `[[S2, S3], [S4, S1]]`. -/
abbrev SMat := (ℂ × ℂ) × (ℂ × ℂ)

/-- Descriptive schema attributes (`schema.attrs`), carried to results
unchanged. -/
abbrev Attrs := List (String × String)

/-- One illumination channel: an `illum_wavelen` value together with the
matching `illum_polarization` entry. -/
structure Channel where
  wavelen : ℝ
  pol : Pol

/-- The detector/illumination schema.  `channels` models
`schema.illum_wavelen`/`schema.illum_polarization` (one entry per
illumination channel; a scalar wavelength is a one-element list, so
`len(ensure_array(schema.illum_wavelen))` is `channels.length`). -/
structure Schema where
  channels : List Channel
  medium_index : ℝ
  positions : List Point3
  attrs : Attrs

/-- Accessor `schema.illum_wavelen` in a single-channel context (a scalar). -/
def Schema.illum_wavelen (a : Schema) : ℝ :=
  ((a.channels.head?).map Channel.wavelen).getD 0

/-- Accessor `schema.illum_polarization` in a single-channel context. -/
def Schema.illum_polarization (a : Schema) : Pol :=
  ((a.channels.head?).map Channel.pol).getD []

/-- Source function `scatteringtheory.wavevec(a) = 2π/(a.illum_wavelen/a.medium_index)`. -/
noncomputable def wavevec (a : Schema) : ℝ :=
  2 * Real.pi / (a.illum_wavelen / a.medium_index)

/-- A scatterer: a `Sphere` (optional `center`), or a `Scatterers`
composite (an ordered collection of child scatterers; its own optional
`center` and the component enumeration come from the out-of-scope
scatterer hierarchy). -/
inductive Scatterer where
  | sphere (center : Option Point3)
  | composite (center : Option Point3) (components : List Scatterer)

/-- Check `isinstance(s, Sphere)`. -/
def Scatterer.isSphere : Scatterer → Bool
  | .sphere _ => true
  | .composite _ _ => false

/-- Check `isinstance(s, Scatterers)`. -/
def Scatterer.isComposite : Scatterer → Bool
  | .sphere _ => false
  | .composite _ _ => true

/-- The scatterer's `center` attribute. -/
def Scatterer.center : Scatterer → Option Point3
  | .sphere c => c
  | .composite c _ => c

/-- Method `Scatterers.get_component_list()`: the ordered flat list of leaf
scatterers of a composite (a single sphere is its own component list). -/
def Scatterer.get_component_list : Scatterer → List Scatterer
  | .sphere c => [.sphere c]
  | .composite _ [] => []
  | .composite c (s :: rest) =>
      s.get_component_list ++ (Scatterer.composite c rest).get_component_list

/-- The errors the engine can surface:
`MissingParameter(name)`, `TheoryNotCompatibleError(theory, scatterer)`,
a Python-level type/index error (e.g. using an absent centre), and a
structural shape error from array concatenation. -/
inductive ScatErr where
  | missingParameter (name : String)
  | theoryNotCompatible (theory : String) (scatterer : Scatterer)
  | typeError
  | structural

/-- Observable events of a `_calc_field` run: each attempt to transform
the schema's detector positions (`sphere_coords`), recorded with the
centre it was attempted with. -/
inductive Event where
  | coordTransform (center : Option Point3)

/-- The concrete theory's physics-kernel capability set, out of core
scope in the source (`_can_handle`, `_raw_fields`, `_raw_scat_matrs`,
`_raw_cross_sections`), plus the theory's name used in
`TheoryNotCompatibleError`. -/
structure Theory where
  name : String
  can_handle : Scatterer → Bool
  raw_fields : List SphCoord → Scatterer → ℝ → ℝ → Pol → List CVec3
  raw_scat_matrs : Scatterer → List SphCoord → ℝ → ℝ → List SMat
  raw_cross_sections : Scatterer → ℝ → ℝ → Pol → List ℂ

/-- A single-channel field result: the labelled `xr.DataArray` built by
`get_field`, one complex 3-vector per detector position together with the
schema attributes it carries. -/
structure Field where
  data : List CVec3
  attrs : Attrs

/-- Operation `field += get_field(s)`: xarray elementwise addition of two aligned
field arrays. -/
def Field.add (a b : Field) : Field :=
  { data := List.zipWith (fun u v => u + v) a.data b.data, attrs := a.attrs }

/-- A `_calc_field` result: either a single-channel field, or a field
with an illumination axis (one entry per channel, from `clean_concat`). -/
inductive FieldResult where
  | single (f : Field)
  | multi (channels : List Field)

/-! ## Coordinate transform (holopy.core.metadata, not under src/) -/

/-- The position transform underlying `sphere_coords` with a present
centre: each schema detector position, relative to the centre, in
spherical coordinates (via `math.to_spherical`), the radial coordinate
scaled by the wavevector when one is passed (`wavevec` defaults to no
scaling when the caller omits it). -/
noncomputable def sphere_coords_at (schema : Schema) (c : Point3) (wv : Option ℝ) :
    List SphCoord :=
  schema.positions.map fun p =>
    let s := to_spherical (p.x - c.x) (p.y - c.y) (p.z - c.z)
    { s with r := wv.getD 1 * s.r }

/-- Modelled from the spec: `sphere_coords` (from `holopy.core.metadata`,
which is not under src/) converts the schema's detector positions into
spherical coordinates relative to the given centre, "scaled by the medium
wavevector" when a wavevector is passed; with an absent centre the
transform fails (a Python-level error, not a `MissingParameter`). -/
noncomputable def sphere_coords (schema : Schema) (center : Option Point3)
    (wv : Option ℝ) : Except ScatErr (List SphCoord) :=
  match center with
  | none => Except.error ScatErr.typeError
  | some c => Except.ok (sphere_coords_at schema c wv)

/-- Modelled from the spec: `clean_concat` (from `holopy.core.metadata`,
not under src/) concatenates the per-channel fields along the
illumination axis, failing with a structural error if it encounters
incompatible shapes. -/
def clean_concat (fs : List Field) : Except ScatErr FieldResult :=
  if fs.all (fun f => f.data.length == ((fs.head?.map (fun g => g.data.length)).getD 0)) then
    Except.ok (FieldResult.multi fs)
  else
    Except.error ScatErr.structural

/-! ## ScatteringTheory._calc_field -/

/-- The inner closure `get_field(s)` of `ScatteringTheory._calc_field`:
`scatterer` is the (outer) scatterer `_calc_field` was called on, `s` the
component being computed.  Checks `isinstance(scatterer, Sphere) and
scatterer.center is None` (raising `MissingParameter("center")`) before
any coordinate transform; then transforms the schema positions relative
to `s.center` scaled by the wavevector, calls the kernel's
`_raw_fields`, multiplies by the phase `exp(-i·k·s.center[2])` and
assembles the labelled result with the schema's attributes.  The first
component of the result is the trace of coordinate-transform attempts. -/
noncomputable def get_field (th : Theory) (scatterer : Scatterer) (schema : Schema)
    (s : Scatterer) : List Event × Except ScatErr Field :=
  if scatterer.isSphere && scatterer.center.isNone then
    ([], Except.error (ScatErr.missingParameter ("center")))
  else
    let k := wavevec schema
    let evs := [Event.coordTransform s.center]
    match s.center with
    | none => (evs, Except.error ScatErr.typeError)
    | some c =>
      let positions := sphere_coords_at schema c (some k)
      let raw := th.raw_fields positions s k schema.medium_index schema.illum_polarization
      let phase : ℂ := Complex.exp (-Complex.I * (k * c.z : ℝ))
      (evs, Except.ok
        { data := raw.map (fun v => (phase * v.1, phase * v.2.1, phase * v.2.2)),
          attrs := schema.attrs })

/-- The body of the superposition loop
`for s in scatterers[1:]: field += get_field(s)`: on an accumulated
field, add the next component's field (errors propagate). -/
noncomputable def superpose_step (th : Theory) (scatterer : Scatterer) (schema : Schema)
    (acc : List Event × Except ScatErr Field) (s : Scatterer) :
    List Event × Except ScatErr Field :=
  match acc with
  | (evs, Except.error e) => (evs, Except.error e)
  | (evs, Except.ok f) =>
    match get_field th scatterer schema s with
    | (evs2, Except.ok f2) => (evs ++ evs2, Except.ok (Field.add f f2))
    | (evs2, Except.error e) => (evs ++ evs2, Except.error e)

/-- The composite branch of `_calc_field`:
`field = get_field(scatterers[0]); for s in scatterers[1:]: field +=
get_field(s)` over the flat component list (an empty component list is
the Python index error). -/
noncomputable def superpose (th : Theory) (scatterer : Scatterer) (schema : Schema) :
    List Scatterer → List Event × Except ScatErr Field
  | [] => ([], Except.error ScatErr.typeError)
  | c0 :: rest =>
    match get_field th scatterer schema c0 with
    | (evs0, Except.error e) => (evs0, Except.error e)
    | (evs0, Except.ok f0) =>
      rest.foldl (superpose_step th scatterer schema) (evs0, Except.ok f0)

/-- The body of the per-illumination-channel loop of `_calc_field`:
append the recursively computed single-channel field for the next
channel (`compute ch`); errors propagate, and a recursive result that is
not a single-channel field is a Python-level error. -/
def channel_step (compute : Channel → List Event × Except ScatErr FieldResult)
    (acc : List Event × Except ScatErr (List Field)) (ch : Channel) :
    List Event × Except ScatErr (List Field) :=
  match acc with
  | (evs, Except.error e) => (evs, Except.error e)
  | (evs, Except.ok fs) =>
    match compute ch with
    | (evs2, Except.ok (FieldResult.single f)) => (evs ++ evs2, Except.ok (fs ++ [f]))
    | (evs2, Except.ok (FieldResult.multi _)) => (evs ++ evs2, Except.error ScatErr.typeError)
    | (evs2, Except.error e) => (evs ++ evs2, Except.error e)

/-- On the accumulated outcome of the per-channel loop: `clean_concat`
the collected per-channel fields along the illumination axis (an error
from the loop propagates). -/
def concat_result (q : List Event × Except ScatErr (List Field)) :
    List Event × Except ScatErr FieldResult :=
  match q with
  | (evs, Except.ok fs) => (evs, clean_concat fs)
  | (evs, Except.error e) => (evs, Except.error e)

/-- Method `ScatteringTheory._calc_field(scatterer, schema)`.
If the schema has more than one illumination wavelength channel, compute
the field once per channel — on `scatterer.select({illumination: ch})`
and the schema narrowed by `update_metadata` to that channel's
wavelength/polarization — in schema order, and `clean_concat` the
results along the illumination axis.  Otherwise: if the theory
`_can_handle` the scatterer, one direct `get_field`; else if the
scatterer is a `Scatterers` composite, superpose the fields of its flat
component list; else raise `TheoryNotCompatibleError(self, scatterer)`.
`select` is the out-of-scope per-channel scatterer narrowing
capability. -/
noncomputable def calc_field (th : Theory) (select : Scatterer → Channel → Scatterer)
    (scatterer : Scatterer) (schema : Schema) :
    List Event × Except ScatErr FieldResult :=
  if h : 1 < schema.channels.length then
    concat_result (schema.channels.foldl
      (channel_step (fun ch =>
        calc_field th select (select scatterer ch) { schema with channels := [ch] }))
      ([], Except.ok []))
  else
    if th.can_handle scatterer then
      let p := get_field th scatterer schema scatterer
      (p.1, p.2.map FieldResult.single)
    else if scatterer.isComposite then
      let p := superpose th scatterer schema scatterer.get_component_list
      (p.1, p.2.map FieldResult.single)
    else
      ([], Except.error (ScatErr.theoryNotCompatible th.name scatterer))
termination_by schema.channels.length
decreasing_by simp_all

/-! ## ScatteringTheory._calc_cross_sections -/

/-- The labelled cross-section result: the kernel's raw values with the
`cross_section` coordinate labels the source attaches. -/
structure XSResult where
  data : List ℂ
  labels : List String

/-- Method `ScatteringTheory._calc_cross_sections`: delegate to the kernel's
`_raw_cross_sections` and wrap the returned values in a `DataArray`
labelled `['scattering', 'absorbtion', 'extinction', 'assymetry']`
(spelled exactly as in the source). -/
def calc_cross_sections (th : Theory) (scatterer : Scatterer)
    (medium_wavevec medium_index : ℝ) (illum_polarization : Pol) : XSResult :=
  { data := th.raw_cross_sections scatterer medium_wavevec medium_index illum_polarization,
    labels := ["scattering", "absorbtion", "extinction", "assymetry"] }

/-! ## ScatteringTheory._calc_scat_matrix -/

/-- The labelled scattering-matrix result: per-position `(2, 2)` matrix
data on a primary position axis; the non-primary spherical coordinates
(`r`, `theta`, `phi`) retained as secondary labels on that axis; the two
2-element sub-axes `Epar`/`Eperp` with their fixed labels; and the
schema's attributes. -/
structure SMatResult where
  data : List SMat
  coord_r : List ℝ
  coord_theta : List ℝ
  coord_phi : List ℝ
  epar : List String
  eperp : List String
  attrs : Attrs

/-- Method `ScatteringTheory._calc_scat_matrix(scatterer, schema)`:
`positions = sphere_coords(schema, scatterer.center)` — note: no
`wavevec` argument, so the radial coordinate is not scaled — then the
kernel's `_raw_scat_matrs` with `wavevec(schema)` and the medium index,
reassembled with dims `[position, Epar, Eperp]`, the non-primary
position coordinates as secondary labels, `Epar = ['S2','S3']`,
`Eperp = ['S4','S1']`, and the schema's attributes. -/
noncomputable def calc_scat_matrix (th : Theory) (scatterer : Scatterer)
    (schema : Schema) : Except ScatErr SMatResult :=
  (sphere_coords schema scatterer.center none).map fun positions =>
    { data := th.raw_scat_matrs scatterer positions (wavevec schema) schema.medium_index
      coord_r := positions.map SphCoord.r
      coord_theta := positions.map SphCoord.theta
      coord_phi := positions.map SphCoord.phi
      epar := ["S2", "S3"]
      eperp := ["S4", "S1"]
      attrs := schema.attrs }

/-! ## Spec-side definitions (for the relational claims) -/

/-- The spec-side complex vector sum of the per-component
single-particle fields: the first field seeds the accumulator, later fields add on. -/
def superposition_sum : List Field → Field
  | [] => { data := [], attrs := [] }
  | f0 :: rest => rest.foldl Field.add f0

/-! ## Concrete instances used to exercise the engine -/

/-- A concrete sphere-only theory: handles exactly spheres, with simple
explicit kernel routines. -/
noncomputable def mieLike : Theory :=
  { name := "Mie"
    can_handle := Scatterer.isSphere
    raw_fields := fun pos _ _ _ _ => pos.map (fun _ => ((1 : ℂ), (0 : ℂ), (0 : ℂ)))
    raw_scat_matrs := fun _ pos _ _ =>
      pos.map (fun _ => (((1 : ℂ), (0 : ℂ)), ((0 : ℂ), (1 : ℂ))))
    raw_cross_sections := fun _ _ _ _ => [1, 0, 1, 0] }

/-- A concrete theory whose kernel handles nothing. -/
noncomputable def inertTheory : Theory :=
  { name := "inert"
    can_handle := fun _ => false
    raw_fields := fun pos _ _ _ _ => pos.map (fun _ => ((0 : ℂ), (0 : ℂ), (0 : ℂ)))
    raw_scat_matrs := fun _ pos _ _ =>
      pos.map (fun _ => (((0 : ℂ), (0 : ℂ)), ((0 : ℂ), (0 : ℂ))))
    raw_cross_sections := fun _ _ _ _ => [] }

/-- A concrete single-wavelength schema (no detector positions). -/
noncomputable def oneChannelSchema : Schema :=
  { channels := [{ wavelen := 1, pol := [] }]
    medium_index := 1
    positions := []
    attrs := [] }

/-- A concrete two-wavelength schema (no detector positions). -/
noncomputable def twoChannelSchema : Schema :=
  { channels := [{ wavelen := 1, pol := [] }, { wavelen := 2, pol := [] }]
    medium_index := 1
    positions := []
    attrs := [] }

/-! ## C9: to_spherical at the origin -/

/-- C9. For the input `x = y = z = 0`, `to_spherical` returns
`theta = 0` — and, being a total function into `SphCoord`, raises no
exception and yields no ill-defined output: all three outputs are
exactly `0` (`arctan2 0 0 = 0`, the two-argument arctangent, avoids the
`0/0` of a naive division). -/
theorem to_spherical_origin : to_spherical 0 0 0 = ⟨0, 0, 0⟩ := by
  have hz : (⟨0, 0⟩ : ℂ) = 0 := by
    apply Complex.ext <;> simp
  simp [to_spherical, arctan2, hz]

/-! ## C8: chisq -/

/-- C8. For every pair of same-shaped arrays `fit` and `data`,
`chisq fit data` is the plain real scalar `(1/N)·Σ(fit−data)²`, `N` the
number of data points. -/
theorem chisq_mean_squared_residual (fit data : List ℝ)
    (h : fit.length = data.length) :
    chisq fit data =
      (1 / (data.length : ℝ)) * (List.zipWith (fun a b => (a - b) ^ 2) fit data).sum := by
  unfold chisq
  rw [h]
  have hmap : (List.zipWith (fun a b => a - b) fit data).map (fun d => d ^ 2) =
      List.zipWith (fun a b => (a - b) ^ 2) fit data := by
    clear h
    induction fit generalizing data with
    | nil => simp
    | cons a fit ih =>
      cases data with
      | nil => simp
      | cons b data => simp [ih]
  rw [hmap]
  ring

/-- Witness for C8 at `fit = [1, 2]`, `data = [3, 5]`. -/
theorem chisq_mean_squared_residual_witness : chisq [1, 2] [3, 5] = 13 / 2 := by
  have h := chisq_mean_squared_residual [1, 2] [3, 5] rfl
  rw [h]
  norm_num

/-! ## C3: cross sections -/

/-- C3 (amended). For every scatterer and illumination parameters,
`_calc_cross_sections` returns the kernel's raw values unchanged,
wrapped as a labelled vector with the fixed labels — spelled, as in the
source, `['scattering', 'absorbtion', 'extinction', 'assymetry']` — with
no branching logic. -/
theorem calc_cross_sections_wraps_raw (th : Theory) (s : Scatterer) (k n : ℝ)
    (p : Pol) :
    calc_cross_sections th s k n p =
      { data := th.raw_cross_sections s k n p,
        labels := ["scattering", "absorbtion", "extinction", "assymetry"] } := rfl

/-- Counterexample for C3 as stated: the labels are not the correctly
spelled `{scattering, absorption, extinction, asymmetry}` — the source
spells two of them `'absorbtion'` and `'assymetry'`. -/
theorem calc_cross_sections_labels_misspelled :
    (calc_cross_sections mieLike (Scatterer.sphere none) 1 1 []).labels ≠
      ["scattering", "absorption", "extinction", "asymmetry"] := by
  decide

/-! ## Unfolding lemmas for `calc_field` -/

/-- Unfolding `_calc_field` on a schema that is not multi-wavelength: the
single-channel dispatch. -/
lemma calc_field_single_eq (th : Theory) (select : Scatterer → Channel → Scatterer)
    (scatterer : Scatterer) (schema : Schema) (h : ¬ 1 < schema.channels.length) :
    calc_field th select scatterer schema =
      if th.can_handle scatterer then
        let p := get_field th scatterer schema scatterer
        (p.1, p.2.map FieldResult.single)
      else if scatterer.isComposite then
        let p := superpose th scatterer schema scatterer.get_component_list
        (p.1, p.2.map FieldResult.single)
      else
        ([], Except.error (ScatErr.theoryNotCompatible th.name scatterer)) := by
  rw [calc_field.eq_def]
  simp only [dif_neg h]

/-- Unfolding `_calc_field` on a multi-wavelength schema: the per-channel loop and
the concatenation along the illumination axis. -/
lemma calc_field_multi_eq (th : Theory) (select : Scatterer → Channel → Scatterer)
    (scatterer : Scatterer) (schema : Schema) (h : 1 < schema.channels.length) :
    calc_field th select scatterer schema =
      concat_result (schema.channels.foldl
        (channel_step (fun ch =>
          calc_field th select (select scatterer ch) { schema with channels := [ch] }))
        ([], Except.ok [])) := by
  rw [calc_field.eq_def]
  simp only [dif_pos h]

/-! ## Helper lemmas about `get_field` and the loops -/

/-- The body of `get_field` does not depend on which outer scatterer the
missing-centre check was made against, once that check does not fire. -/
lemma get_field_outer_congr (th : Theory) (schema : Schema) (s : Scatterer)
    {o1 o2 : Scatterer}
    (h1 : (o1.isSphere && o1.center.isNone) = false)
    (h2 : (o2.isSphere && o2.center.isNone) = false) :
    get_field th o1 schema s = get_field th o2 schema s := by
  unfold get_field
  rw [h1, h2]

/-- Unfolding `get_field` on a component with a present centre: one coordinate
transform, then the phase-corrected kernel output (phase written as the
source computes it, `exp(-i·wavevec·z)`). -/
lemma get_field_some_center (th : Theory) (outer s : Scatterer) (schema : Schema)
    (c : Point3)
    (houter : (outer.isSphere && outer.center.isNone) = false)
    (hc : s.center = some c) :
    get_field th outer schema s =
      ([Event.coordTransform (some c)],
        Except.ok
          { data := (th.raw_fields (sphere_coords_at schema c (some (wavevec schema))) s
                (wavevec schema) schema.medium_index schema.illum_polarization).map
              (fun v =>
                (Complex.exp (-Complex.I * (wavevec schema * c.z : ℝ)) * v.1,
                 Complex.exp (-Complex.I * (wavevec schema * c.z : ℝ)) * v.2.1,
                 Complex.exp (-Complex.I * (wavevec schema * c.z : ℝ)) * v.2.2)),
            attrs := schema.attrs }) := by
  unfold get_field
  rw [houter]
  simp [hc]

/-- Unfolding `get_field` on a component with an absent centre (and the
missing-centre check not firing): the coordinate transform is attempted
with the absent centre and fails as a Python-level error. -/
lemma get_field_none_center (th : Theory) (outer s : Scatterer) (schema : Schema)
    (houter : (outer.isSphere && outer.center.isNone) = false)
    (hc : s.center = none) :
    get_field th outer schema s =
      ([Event.coordTransform none], Except.error ScatErr.typeError) := by
  unfold get_field
  rw [houter]
  simp [hc]

/-- Every member of a flat component list is a sphere. -/
lemma isSphere_of_mem_component_list :
    ∀ (s : Scatterer), ∀ c ∈ s.get_component_list, c.isSphere = true
  | .sphere c0 => by
    intro c hc
    simp [Scatterer.get_component_list] at hc
    subst hc
    rfl
  | .composite cc [] => by
    intro c hc
    simp [Scatterer.get_component_list] at hc
  | .composite cc (s :: rest) => by
    intro c hc
    simp only [Scatterer.get_component_list, List.mem_append] at hc
    cases hc with
    | inl h => exact isSphere_of_mem_component_list s c h
    | inr h => exact isSphere_of_mem_component_list (.composite cc rest) c h

/-! ## C2: missing centre on a sphere -/

/-- C2. For every sphere scatterer whose centre is absent (and a
single-wavelength schema, with a kernel that handles spheres),
`_calc_field` fails with the missing-parameter error naming `"center"`,
and the event trace is empty: no coordinate transform of the schema's
detector positions was attempted. -/
theorem calc_field_missing_center (th : Theory)
    (select : Scatterer → Channel → Scatterer) (schema : Schema)
    (hch : schema.channels.length = 1)
    (hcan : th.can_handle (Scatterer.sphere none) = true) :
    calc_field th select (Scatterer.sphere none) schema =
      ([], Except.error (ScatErr.missingParameter ("center"))) := by
  rw [calc_field_single_eq th select _ schema (by omega)]
  simp only [hcan, if_true]
  unfold get_field
  simp [Scatterer.isSphere, Scatterer.center, Except.map]

/-- Witness for C2 on a concrete theory and schema. -/
theorem calc_field_missing_center_witness :
    calc_field mieLike (fun s _ => s) (Scatterer.sphere none) oneChannelSchema =
      ([], Except.error (ScatErr.missingParameter ("center"))) :=
  calc_field_missing_center mieLike (fun s _ => s) oneChannelSchema rfl rfl

/-! ## C4: the phase correction -/

/-- C4. Inside `_calc_field`, the single-particle field of a
component `s` with centre `c` equals the raw kernel output (computed at
the wavevector-scaled spherical positions) multiplied by the phase
factor `exp(-i·k·z_center)` exactly once per component, with
`k = 2π·medium_index/illum_wavelen` the medium wavevector and `z_center`
the component's z-coordinate — before any superposition. -/
theorem get_field_phase_once (th : Theory) (outer s : Scatterer) (schema : Schema)
    (c : Point3)
    (houter : (outer.isSphere && outer.center.isNone) = false)
    (hc : s.center = some c) :
    get_field th outer schema s =
      ([Event.coordTransform (some c)],
        Except.ok
          { data := (th.raw_fields (sphere_coords_at schema c (some (wavevec schema))) s
                (wavevec schema) schema.medium_index schema.illum_polarization).map
              (fun v =>
                (Complex.exp (-Complex.I *
                    ((2 * Real.pi * schema.medium_index / schema.illum_wavelen) * c.z : ℝ)) * v.1,
                 Complex.exp (-Complex.I *
                    ((2 * Real.pi * schema.medium_index / schema.illum_wavelen) * c.z : ℝ)) * v.2.1,
                 Complex.exp (-Complex.I *
                    ((2 * Real.pi * schema.medium_index / schema.illum_wavelen) * c.z : ℝ)) * v.2.2)),
            attrs := schema.attrs }) := by
  have hk : wavevec schema = 2 * Real.pi * schema.medium_index / schema.illum_wavelen := by
    unfold wavevec
    rw [div_div_eq_mul_div]
  rw [get_field_some_center th outer s schema c houter hc, hk]

/-- Witness for C4: a sphere at `(0, 0, 5)` under a concrete theory and
schema. -/
theorem get_field_phase_once_witness :
    get_field mieLike (Scatterer.sphere (some ⟨0, 0, 5⟩)) oneChannelSchema
        (Scatterer.sphere (some ⟨0, 0, 5⟩)) =
      ([Event.coordTransform (some ⟨0, 0, 5⟩)],
        Except.ok { data := [], attrs := [] }) := by
  have h := get_field_phase_once mieLike (Scatterer.sphere (some ⟨0, 0, 5⟩))
    (Scatterer.sphere (some ⟨0, 0, 5⟩)) oneChannelSchema ⟨0, 0, 5⟩ rfl rfl
  rw [h]
  rfl

/-! ## C7: the fallback chain -/

/-- C7. For every single-wavelength call to `_calc_field` the
fallback chain is evaluated in the fixed order — kernel handles the
scatterer: compute directly via `get_field`; else a composite: component
superposition; else: the incompatibility error naming the theory and the
scatterer — and these three cases are exhaustive (no other fallback or
retry occurs). -/
theorem calc_field_fallback_chain (th : Theory)
    (select : Scatterer → Channel → Scatterer) (scatterer : Scatterer)
    (schema : Schema) (hch : schema.channels.length = 1) :
    (th.can_handle scatterer = true →
      calc_field th select scatterer schema =
        ((get_field th scatterer schema scatterer).1,
         (get_field th scatterer schema scatterer).2.map FieldResult.single)) ∧
    (th.can_handle scatterer = false → scatterer.isComposite = true →
      calc_field th select scatterer schema =
        ((superpose th scatterer schema scatterer.get_component_list).1,
         (superpose th scatterer schema scatterer.get_component_list).2.map
           FieldResult.single)) ∧
    (th.can_handle scatterer = false → scatterer.isComposite = false →
      calc_field th select scatterer schema =
        ([], Except.error (ScatErr.theoryNotCompatible th.name scatterer))) := by
  rw [calc_field_single_eq th select scatterer schema (by omega)]
  exact ⟨fun h1 => by simp [h1], fun h1 h2 => by simp [h1, h2],
    fun h1 h2 => by simp [h1, h2]⟩

/-- Witness for C7: a sphere no theory handles yields the
incompatibility error naming the theory and the scatterer. -/
theorem calc_field_fallback_chain_witness :
    calc_field inertTheory (fun s _ => s) (Scatterer.sphere none) oneChannelSchema =
      ([], Except.error
        (ScatErr.theoryNotCompatible ("inert") (Scatterer.sphere none))) := by
  have h := calc_field_fallback_chain inertTheory (fun s _ => s)
    (Scatterer.sphere none) oneChannelSchema rfl
  exact h.2.2 rfl rfl

/-! ## C10: the missing-centre check inspects only the top-level scatterer -/

/-- C10. In the composite-superposition path, the missing-centre
check inspects only the top-level scatterer (and fires only for a
`Sphere`): for a composite one of whose components has no centre, no
missing-parameter error naming `"center"` is raised, and the
per-component computation proceeds to the coordinate transform with the
absent centre (the transform attempt with centre `none` is in the event
trace). -/
theorem calc_field_composite_skips_center_check (th : Theory)
    (select : Scatterer → Channel → Scatterer) (schema : Schema)
    (c : Point3) (cc : Option Point3)
    (hch : schema.channels.length = 1)
    (hno : th.can_handle (Scatterer.composite cc
      [Scatterer.sphere (some c), Scatterer.sphere none]) = false) :
    (calc_field th select (Scatterer.composite cc
        [Scatterer.sphere (some c), Scatterer.sphere none]) schema).2 ≠
      Except.error (ScatErr.missingParameter ("center")) ∧
    Event.coordTransform none ∈
      (calc_field th select (Scatterer.composite cc
        [Scatterer.sphere (some c), Scatterer.sphere none]) schema).1 := by
  rw [calc_field_single_eq th select _ schema (by omega)]
  have h1 := get_field_some_center th
    (Scatterer.composite cc [Scatterer.sphere (some c), Scatterer.sphere none])
    (Scatterer.sphere (some c)) schema c (by simp [Scatterer.isSphere]) rfl
  have h2 := get_field_none_center th
    (Scatterer.composite cc [Scatterer.sphere (some c), Scatterer.sphere none])
    (Scatterer.sphere none) schema (by simp [Scatterer.isSphere]) rfl
  simp [hno, Scatterer.isComposite, Scatterer.get_component_list, superpose,
    superpose_step, h1, h2, Except.map]

/-- Witness for C10 on a concrete theory and schema. -/
theorem calc_field_composite_skips_center_check_witness :
    (calc_field mieLike (fun s _ => s) (Scatterer.composite none
        [Scatterer.sphere (some ⟨0, 0, 0⟩), Scatterer.sphere none])
        oneChannelSchema).2 ≠
      Except.error (ScatErr.missingParameter ("center")) ∧
    Event.coordTransform none ∈
      (calc_field mieLike (fun s _ => s) (Scatterer.composite none
        [Scatterer.sphere (some ⟨0, 0, 0⟩), Scatterer.sphere none])
        oneChannelSchema).1 :=
  calc_field_composite_skips_center_check mieLike (fun s _ => s) oneChannelSchema
    ⟨0, 0, 0⟩ none rfl rfl

/-! ## C1: composite superposition -/

/-- The superposition loop on components whose `get_field` all succeed:
the accumulated field is the left fold of `Field.add`. -/
lemma superpose_step_foldl (th : Theory) (outer : Scatterer) (schema : Schema) :
    ∀ (cs : List Scatterer) (fs : List Field),
      List.Forall₂ (fun c f => (get_field th outer schema c).2 = Except.ok f) cs fs →
      ∀ (evs : List Event) (f : Field),
        (cs.foldl (superpose_step th outer schema) (evs, Except.ok f)).2 =
          Except.ok (fs.foldl Field.add f) := by
  intro cs fs h
  induction h with
  | nil => intro evs f; rfl
  | @cons c g cs fs hrel hrest ih =>
    intro evs f
    rcases hgf : get_field th outer schema c with ⟨evs2, r2⟩
    rw [hgf] at hrel
    simp only at hrel
    subst hrel
    simp only [List.foldl_cons, superpose_step, hgf]
    exact ih (evs ++ evs2) (f.add g)

/-- The composite branch on a component list whose `get_field` all
succeed: the result is the complex vector sum of the per-component
fields. -/
lemma superpose_ok (th : Theory) (outer : Scatterer) (schema : Schema)
    (cs : List Scatterer) (fs : List Field)
    (h : List.Forall₂ (fun c f => (get_field th outer schema c).2 = Except.ok f) cs fs)
    (hne : fs ≠ []) :
    (superpose th outer schema cs).2 = Except.ok (superposition_sum fs) := by
  cases h with
  | nil => exact absurd rfl hne
  | @cons c g cs fs hrel hrest =>
    rcases hgf : get_field th outer schema c with ⟨evs2, r2⟩
    rw [hgf] at hrel
    simp only at hrel
    subst hrel
    simp only [superpose, hgf, superposition_sum]
    exact superpose_step_foldl th outer schema cs fs hrest evs2 g

/-- An individually computed single-channel field of a sphere forces:
the kernel handled it, its centre is present, and the field is its
`get_field` output. -/
lemma calc_field_leaf_ok (th : Theory) (select : Scatterer → Channel → Scatterer)
    (schema : Schema) {c : Scatterer} {f : Field}
    (hch : ¬ 1 < schema.channels.length)
    (hsph : c.isSphere = true)
    (hok : (calc_field th select c schema).2 = Except.ok (FieldResult.single f)) :
    th.can_handle c = true ∧ (c.isSphere && c.center.isNone) = false ∧
      (get_field th c schema c).2 = Except.ok f := by
  rw [calc_field_single_eq th select c schema hch] at hok
  cases hcan : th.can_handle c with
  | false =>
    have hcomp : c.isComposite = false := by
      cases c with
      | sphere _ => rfl
      | composite _ _ => exact absurd hsph (by simp [Scatterer.isSphere])
    rw [hcan] at hok
    simp [hcomp] at hok
  | true =>
    rw [hcan] at hok
    simp only [if_true] at hok
    cases hnone : c.center.isNone with
    | true =>
      rw [show get_field th c schema c =
          ([], Except.error (ScatErr.missingParameter ("center"))) by
        unfold get_field
        rw [hsph, hnone]
        rfl] at hok
      simp [Except.map] at hok
    | false =>
      refine ⟨rfl, by simp [hsph, hnone], ?_⟩
      rcases hgf : (get_field th c schema c).2 with e | g
      · rw [hgf] at hok
        simp [Except.map] at hok
      · rw [hgf] at hok
        simp only [Except.map] at hok
        cases hok
        rfl

/-- Components (all spheres) whose individual `_calc_field` runs succeed
also have succeeding `get_field` runs against any outer scatterer whose
missing-centre check does not fire. -/
lemma forall2_get_field_of_calc_field (th : Theory)
    (select : Scatterer → Channel → Scatterer) (schema : Schema)
    (outer : Scatterer)
    (houter : (outer.isSphere && outer.center.isNone) = false)
    (hch : ¬ 1 < schema.channels.length) :
    ∀ (cs : List Scatterer) (fs : List Field),
      List.Forall₂
        (fun c f => (calc_field th select c schema).2 = Except.ok (FieldResult.single f))
        cs fs →
      (∀ c ∈ cs, c.isSphere = true) →
      List.Forall₂ (fun c f => (get_field th outer schema c).2 = Except.ok f) cs fs := by
  intro cs fs h
  induction h with
  | nil => intro _; exact List.Forall₂.nil
  | @cons c g cs' fs' hrel hrest ih =>
    intro hall
    have hsph : c.isSphere = true := hall c (List.mem_cons_self c cs')
    obtain ⟨hcan, hchk, hgf⟩ := calc_field_leaf_ok th select schema hch hsph hrel
    refine List.Forall₂.cons ?_ (ih (fun x hx => hall x (List.mem_cons_of_mem c hx)))
    rw [get_field_outer_congr th schema c houter hchk]
    exact hgf

/-- C1. For every composite scatterer the kernel cannot handle as a
whole, on a single-wavelength schema, `_calc_field` on the composite is
the complex vector sum of the per-component single-particle fields:
whenever each component of the flat component list, computed
independently (its own `_calc_field` call, at its own centre), yields
the field `fᵢ`, the composite's field is `superposition_sum [f₁, …, fₙ]`
in the composite's declared order. -/
theorem calc_field_composite_superposition (th : Theory)
    (select : Scatterer → Channel → Scatterer) (cc : Option Point3)
    (comps : List Scatterer) (schema : Schema) (fs : List Field)
    (hch : schema.channels.length = 1)
    (hno : th.can_handle (Scatterer.composite cc comps) = false)
    (hne : fs ≠ [])
    (hfs : List.Forall₂
      (fun c f => (calc_field th select c schema).2 = Except.ok (FieldResult.single f))
      (Scatterer.composite cc comps).get_component_list fs) :
    (calc_field th select (Scatterer.composite cc comps) schema).2 =
      Except.ok (FieldResult.single (superposition_sum fs)) := by
  have hch' : ¬ 1 < schema.channels.length := by omega
  have houter : ((Scatterer.composite cc comps).isSphere &&
      (Scatterer.composite cc comps).center.isNone) = false := by
    simp [Scatterer.isSphere]
  have hfs' := forall2_get_field_of_calc_field th select schema
    (Scatterer.composite cc comps) houter hch'
    (Scatterer.composite cc comps).get_component_list fs hfs
    (isSphere_of_mem_component_list (Scatterer.composite cc comps))
  rw [calc_field_single_eq th select _ schema hch']
  simp only [hno, Bool.false_eq_true, if_false, Scatterer.isComposite, if_true]
  rw [superpose_ok th (Scatterer.composite cc comps) schema
    (Scatterer.composite cc comps).get_component_list fs hfs' hne]
  rfl

/-- Witness for C1: a two-sphere composite under a concrete theory and
schema. -/
theorem calc_field_composite_superposition_witness :
    (calc_field mieLike (fun s _ => s) (Scatterer.composite none
        [Scatterer.sphere (some ⟨0, 0, 0⟩), Scatterer.sphere (some ⟨0, 0, 1⟩)])
        oneChannelSchema).2 =
      Except.ok (FieldResult.single (superposition_sum
        [{ data := [], attrs := [] }, { data := [], attrs := [] }])) := by
  have leg : ∀ p : Point3,
      (calc_field mieLike (fun s _ => s) (Scatterer.sphere (some p))
        oneChannelSchema).2 =
        Except.ok (FieldResult.single { data := [], attrs := [] }) := by
    intro p
    rw [calc_field_single_eq _ _ _ _ (by decide)]
    rw [get_field_some_center mieLike (Scatterer.sphere (some p))
      (Scatterer.sphere (some p)) oneChannelSchema p rfl rfl]
    rfl
  refine calc_field_composite_superposition mieLike (fun s _ => s) none
    [Scatterer.sphere (some ⟨0, 0, 0⟩), Scatterer.sphere (some ⟨0, 0, 1⟩)]
    oneChannelSchema [{ data := [], attrs := [] }, { data := [], attrs := [] }]
    rfl rfl (by simp) ?_
  have hl : (Scatterer.composite none
      [Scatterer.sphere (some ⟨0, 0, 0⟩), Scatterer.sphere (some ⟨0, 0, 1⟩)]).get_component_list =
      [Scatterer.sphere (some ⟨0, 0, 0⟩), Scatterer.sphere (some ⟨0, 0, 1⟩)] := by
    simp [Scatterer.get_component_list]
  rw [hl]
  exact List.Forall₂.cons (leg ⟨0, 0, 0⟩)
    (List.Forall₂.cons (leg ⟨0, 0, 1⟩) List.Forall₂.nil)

/-! ## C5: multi-wavelength composition -/

/-- The per-channel loop on channels whose recursive computation all
yield single-channel fields: the collected list, in channel order. -/
lemma channel_step_foldl (compute : Channel → List Event × Except ScatErr FieldResult) :
    ∀ (chs : List Channel) (fs : List Field),
      List.Forall₂ (fun ch f => (compute ch).2 = Except.ok (FieldResult.single f)) chs fs →
      ∀ (evs : List Event) (gs : List Field),
        (chs.foldl (channel_step compute) (evs, Except.ok gs)).2 =
          Except.ok (gs ++ fs) := by
  intro chs fs h
  induction h with
  | nil => intro evs gs; simp
  | @cons ch f chs' fs' hrel hrest ih =>
    intro evs gs
    rcases hc : compute ch with ⟨evs2, r2⟩
    rw [hc] at hrel
    simp only at hrel
    subst hrel
    simp only [List.foldl_cons, channel_step, hc]
    rw [ih (evs ++ evs2) (gs ++ [f])]
    simp

/-- C5. For every schema with more than one illumination wavelength
channel, `_calc_field` computes the field once per channel — on the
scatterer narrowed by `select` and the schema narrowed to that channel —
iterating channels in schema order, and concatenates the per-channel
fields along the illumination axis: whenever each per-channel
single-channel computation yields `fᵢ` and the shapes are compatible,
the result is `FieldResult.multi [f₁, …, fₙ]` with exactly one entry per
channel. -/
theorem calc_field_multichannel (th : Theory)
    (select : Scatterer → Channel → Scatterer) (scatterer : Scatterer)
    (schema : Schema) (fs : List Field)
    (hch : 1 < schema.channels.length)
    (hfs : List.Forall₂ (fun ch f =>
        (calc_field th select (select scatterer ch)
          { schema with channels := [ch] }).2 = Except.ok (FieldResult.single f))
      schema.channels fs)
    (hshape : clean_concat fs = Except.ok (FieldResult.multi fs)) :
    (calc_field th select scatterer schema).2 = Except.ok (FieldResult.multi fs) ∧
      fs.length = schema.channels.length := by
  constructor
  · rw [calc_field_multi_eq th select scatterer schema hch]
    rcases hq : schema.channels.foldl (channel_step (fun ch =>
        calc_field th select (select scatterer ch) { schema with channels := [ch] }))
        ([], Except.ok []) with ⟨evs, r⟩
    have h2 := channel_step_foldl (fun ch =>
        calc_field th select (select scatterer ch) { schema with channels := [ch] })
      schema.channels fs hfs [] []
    rw [hq] at h2
    simp only [List.nil_append] at h2
    subst h2
    simp [concat_result, hshape]
  · exact hfs.length_eq.symm

/-- Witness for C5: a two-wavelength schema under a concrete theory. -/
theorem calc_field_multichannel_witness :
    (calc_field mieLike (fun s _ => s) (Scatterer.sphere (some ⟨0, 0, 0⟩))
        twoChannelSchema).2 =
      Except.ok (FieldResult.multi
        [{ data := [], attrs := [] }, { data := [], attrs := [] }]) ∧
      ([{ data := [], attrs := [] }, { data := [], attrs := [] }] : List Field).length =
        twoChannelSchema.channels.length := by
  have leg : ∀ ch : Channel,
      (calc_field mieLike (fun s _ => s) (Scatterer.sphere (some ⟨0, 0, 0⟩))
        { twoChannelSchema with channels := [ch] }).2 =
        Except.ok (FieldResult.single { data := [], attrs := [] }) := by
    intro ch
    rw [calc_field_single_eq _ _ _ _ (by simp)]
    rw [get_field_some_center mieLike (Scatterer.sphere (some ⟨0, 0, 0⟩))
      (Scatterer.sphere (some ⟨0, 0, 0⟩)) { twoChannelSchema with channels := [ch] }
      ⟨0, 0, 0⟩ rfl rfl]
    rfl
  exact calc_field_multichannel mieLike (fun s _ => s)
    (Scatterer.sphere (some ⟨0, 0, 0⟩)) twoChannelSchema
    [{ data := [], attrs := [] }, { data := [], attrs := [] }]
    (by decide)
    (List.Forall₂.cons (leg { wavelen := 1, pol := [] })
      (List.Forall₂.cons (leg { wavelen := 2, pol := [] }) List.Forall₂.nil))
    rfl

/-! ## C6: the scattering matrix -/

/-- C6. For every scatterer with a centre and every schema,
`_calc_scat_matrix` transforms the schema positions to spherical
coordinates relative to the scatterer's centre with no wavevector
scaling on the radial coordinate — the retained `r` label of each
position is its plain Euclidean `cartesian_distance` from the centre —
and assembles the kernel's per-position matrices into a labelled result
with sub-axes `Epar = [S2, S3]` and `Eperp = [S4, S1]`, carrying the
schema's attributes and the non-primary position coordinates
(`r`, `theta`, `phi`) as secondary labels. -/
theorem calc_scat_matrix_unscaled_labeled (th : Theory) (scatterer : Scatterer)
    (schema : Schema) (c : Point3) (h : scatterer.center = some c) :
    calc_scat_matrix th scatterer schema =
      Except.ok
        { data := th.raw_scat_matrs scatterer (sphere_coords_at schema c none)
            (wavevec schema) schema.medium_index
          coord_r := schema.positions.map (fun p =>
            cartesian_distance [p.x, p.y, p.z] [c.x, c.y, c.z])
          coord_theta := schema.positions.map (fun p =>
            (to_spherical (p.x - c.x) (p.y - c.y) (p.z - c.z)).theta)
          coord_phi := schema.positions.map (fun p =>
            (to_spherical (p.x - c.x) (p.y - c.y) (p.z - c.z)).phi)
          epar := ["S2", "S3"]
          eperp := ["S4", "S1"]
          attrs := schema.attrs } := by
  simp only [calc_scat_matrix, sphere_coords, h, Except.map]
  congr 1
  have hr : ∀ p : Point3,
      (1 : ℝ) * (to_spherical (p.x - c.x) (p.y - c.y) (p.z - c.z)).r =
        cartesian_distance [p.x, p.y, p.z] [c.x, c.y, c.z] := by
    intro p
    rw [one_mul]
    unfold to_spherical cartesian_distance
    simp only [List.zipWith, List.map, List.sum_cons, List.sum_nil]
    congr 1
    ring
  simp [sphere_coords_at, hr]

/-- Witness for C6 on a concrete theory, scatterer and schema. -/
theorem calc_scat_matrix_unscaled_labeled_witness :
    calc_scat_matrix mieLike (Scatterer.sphere (some ⟨0, 0, 0⟩)) oneChannelSchema =
      Except.ok
        { data := [], coord_r := [], coord_theta := [], coord_phi := []
          epar := ["S2", "S3"], eperp := ["S4", "S1"], attrs := [] } := by
  have h := calc_scat_matrix_unscaled_labeled mieLike
    (Scatterer.sphere (some ⟨0, 0, 0⟩)) oneChannelSchema ⟨0, 0, 0⟩ rfl
  rw [h]
  rfl

end HoloPy
